import Mathlib

/-!
Shallow embedding of the jira-query-watch core of the `ota` repository:
the storage data model (`internal/jirawatch/storage`), the diff engine
(`internal/jirawatch/compare`), the YAML-backed snapshot store, and the
service orchestrator (`internal/jirawatch/service`), together with proofs
settling the specification claims about them.
-/

namespace OTA

/-! ## Data model (`internal/jirawatch/storage` types)

Go `time.Time` is modelled as wall-clock seconds plus nanoseconds; the
monotonic reading plays no role in the embedded code paths. -/

/-- Model of Go `time.Time`: seconds since epoch plus nanoseconds. -/
structure Timestamp where
  sec : Int
  nsec : Nat
  deriving DecidableEq, Repr

/-- The zero `time.Time` value. -/
def zeroTimestamp : Timestamp := ⟨0, 0⟩

/-- `storage.Issue`: a JIRA issue with the fields the tool cares about. -/
structure Issue where
  key : String
  summary : String
  component : String
  status : String
  lastUpdated : Timestamp
  labels : List String
  assignee : String
  deriving DecidableEq, Repr

/-- `storage.IssueChange`: a change in an issue field. -/
structure IssueChange where
  field : String
  oldValue : String
  newValue : String
  deriving DecidableEq, Repr

/-- `storage.QueryInfo`: metadata about a stored query. The current store
code (`ListQueriesDetailed`) and its callers read a `Description` field, so
it is part of the record alongside the fields of the declared struct. -/
structure QueryInfo where
  name : String
  jql : String
  description : String
  lastFetched : Timestamp
  issues : List Issue
  deriving DecidableEq, Repr

/-- The zero `storage.QueryInfo` value. -/
def zeroQueryInfo : QueryInfo := ⟨"", "", "", zeroTimestamp, []⟩

/-- `storage.QueryResult`: the result of running a query with change
tracking. The Go `map[string][]IssueChange` is modelled as an association
list (`CompareQueries` puts each key at most once). -/
structure QueryResult where
  query : QueryInfo
  newIssues : List Issue
  removedIssues : List Issue
  changedIssues : List (String × List IssueChange)
  deriving DecidableEq, Repr

/-! ## Association lists

Model for both Go `map[string]V` (insertion overwrites the binding for an
existing key, each key occurs at most once) and for the directory of files
used by the store. -/

/-- Look up a key in an association list (model of Go map indexing). -/
def alGet {α : Type} (m : List (String × α)) (k : String) : Option α :=
  match m with
  | [] => none
  | (k', v) :: rest => if k' = k then some v else alGet rest k

/-- Set a key in an association list, overwriting an existing binding
(model of Go map assignment). -/
def alSet {α : Type} (m : List (String × α)) (k : String) (v : α) : List (String × α) :=
  match m with
  | [] => [(k, v)]
  | (k', v') :: rest => if k' = k then (k, v) :: rest else (k', v') :: alSet rest k v

/-- Remove a key from an association list (model of file removal: after
it, no entry with that key remains). -/
def alRemove {α : Type} (m : List (String × α)) (k : String) : List (String × α) :=
  match m with
  | [] => []
  | (k', v') :: rest => if k' = k then alRemove rest k else (k', v') :: alRemove rest k

/-! ## Diff engine (`internal/jirawatch/compare`) -/

/-- Rendering used for the `last_updated` change record. Abstracts Go
`time.Time.Format(time.RFC3339)`, which renders with second precision. -/
def formatRFC3339 (t : Timestamp) : String := toString t.sec

/-- `compare.compareIssues`: compares two issues and returns a list of
changes, in the source's field order. Label lists are compared with
`reflect.DeepEqual`, i.e. element-wise list equality. -/
def compareIssues (current previous : Issue) : List IssueChange :=
  (if current.summary ≠ previous.summary then
    [⟨"summary", previous.summary, current.summary⟩] else [])
  ++ (if current.component ≠ previous.component then
    [⟨"component", previous.component, current.component⟩] else [])
  ++ (if current.status ≠ previous.status then
    [⟨"status", previous.status, current.status⟩] else [])
  ++ (if current.assignee ≠ previous.assignee then
    [⟨"assignee", previous.assignee, current.assignee⟩] else [])
  ++ (if current.lastUpdated ≠ previous.lastUpdated then
    [⟨"last_updated", formatRFC3339 previous.lastUpdated, formatRFC3339 current.lastUpdated⟩]
    else [])
  ++ (if current.labels ≠ previous.labels then
    [⟨"labels", String.intercalate ", " previous.labels,
      String.intercalate ", " current.labels⟩] else [])

/-- The key→Issue index `CompareQueries` builds for each input list:
`for _, issue := range issues { m[issue.Key] = issue }`. -/
def buildIssueMap (issues : List Issue) : List (String × Issue) :=
  issues.foldl (fun m issue => alSet m issue.key issue) []

/-- `compare.CompareQueries`: compares current issues with previously
stored issues. The Go ranges over the two maps; iteration order is
irrelevant to the claims we settle about the result. -/
def CompareQueries (current previous : List Issue) : QueryResult :=
  let currentMap := buildIssueMap current
  let previousMap := buildIssueMap previous
  let newIssues := (currentMap.filter (fun p => (alGet previousMap p.1).isNone)).map Prod.snd
  let removedIssues := (previousMap.filter (fun p => (alGet currentMap p.1).isNone)).map Prod.snd
  let changedIssues := currentMap.filterMap (fun p =>
    match alGet previousMap p.1 with
    | some previousIssue =>
      let changes := compareIssues p.2 previousIssue
      if changes.length > 0 then some (p.1, changes) else none
    | none => none)
  { query := zeroQueryInfo
    newIssues := newIssues
    removedIssues := removedIssues
    changedIssues := changedIssues }

/-- `compare.HasChanges`: true if there are any changes in the result. -/
def HasChanges (result : QueryResult) : Bool :=
  result.newIssues.length > 0 || result.removedIssues.length > 0
    || result.changedIssues.length > 0

example :
    (CompareQueries
      [⟨"X-1", "t", "c", "In Progress", zeroTimestamp, [], "a"⟩]
      [⟨"X-1", "t", "c", "New", zeroTimestamp, [], "a"⟩]).changedIssues
    = [("X-1", [⟨"status", "New", "In Progress"⟩])] := by decide

example :
    (CompareQueries [⟨"X-2", "t", "c", "New", zeroTimestamp, [], "a"⟩] []).newIssues
    = [⟨"X-2", "t", "c", "New", zeroTimestamp, [], "a"⟩] := by decide

/-! ## YAML documents

The store serializes with `yaml.Marshal`/`yaml.Unmarshal` (yaml.v3). The
text layer is abstracted: a serialized record is the structured document
the encoder emits (field names from the struct tags, sequences in order,
timestamps rendered and re-parsed losslessly). Unmarshalling follows
yaml.v3 struct decoding: a missing field leaves the zero value, a field of
the wrong shape is an error. -/

/-- A structured YAML document as produced by `yaml.Marshal`. -/
inductive Yaml where
  | str (s : String)
  | timestamp (t : Timestamp)
  | seq (items : List Yaml)
  | map (fields : List (String × Yaml))
  deriving Repr

/-- Decode a string-typed struct field (missing field → zero value). -/
def unmarshalStrField (v : Option Yaml) : Except String String :=
  match v with
  | none => .ok ""
  | some (.str s) => .ok s
  | some _ => .error "field is not a string"

/-- Decode a `time.Time` struct field (missing field → zero value). -/
def unmarshalTimeField (v : Option Yaml) : Except String Timestamp :=
  match v with
  | none => .ok zeroTimestamp
  | some (.timestamp t) => .ok t
  | some _ => .error "field is not a timestamp"

/-- Decode one element of a `[]string` struct field. -/
def unmarshalLabel (y : Yaml) : Except String String :=
  match y with
  | .str s => .ok s
  | _ => .error "label is not a string"

/-- Decode the elements of a `[]string` sequence, failing on the first
element that is not a string. -/
def unmarshalLabels (items : List Yaml) : Except String (List String) :=
  match items with
  | [] => .ok []
  | y :: rest => do
    let s ← unmarshalLabel y
    let ss ← unmarshalLabels rest
    Except.ok (s :: ss)

/-- Decode a `[]string` struct field (missing field → zero value). -/
def unmarshalLabelsField (v : Option Yaml) : Except String (List String) :=
  match v with
  | none => .ok []
  | some (.seq items) => unmarshalLabels items
  | some _ => .error "labels is not a sequence"

/-- Serialize one `storage.Issue`, field names from the yaml struct tags. -/
def marshalIssue (i : Issue) : Yaml :=
  .map [("key", .str i.key), ("summary", .str i.summary),
    ("component", .str i.component), ("status", .str i.status),
    ("last_updated", .timestamp i.lastUpdated),
    ("labels", .seq (i.labels.map .str)), ("assignee", .str i.assignee)]

/-- Decode one `storage.Issue`. -/
def unmarshalIssue (y : Yaml) : Except String Issue :=
  match y with
  | .map fields => do
    let key ← unmarshalStrField (alGet fields "key")
    let summary ← unmarshalStrField (alGet fields "summary")
    let component ← unmarshalStrField (alGet fields "component")
    let status ← unmarshalStrField (alGet fields "status")
    let lastUpdated ← unmarshalTimeField (alGet fields "last_updated")
    let labels ← unmarshalLabelsField (alGet fields "labels")
    let assignee ← unmarshalStrField (alGet fields "assignee")
    Except.ok ⟨key, summary, component, status, lastUpdated, labels, assignee⟩
  | _ => .error "issue is not a mapping"

/-- Serialize a `storage.QueryInfo` (`yaml.Marshal`). -/
def marshalQuery (q : QueryInfo) : Yaml :=
  .map [("name", .str q.name), ("jql", .str q.jql),
    ("description", .str q.description),
    ("last_fetched", .timestamp q.lastFetched),
    ("issues", .seq (q.issues.map marshalIssue))]

/-- Decode the elements of a `[]Issue` sequence, failing on the first
element that is not an issue mapping. -/
def unmarshalIssues (items : List Yaml) : Except String (List Issue) :=
  match items with
  | [] => .ok []
  | y :: rest => do
    let i ← unmarshalIssue y
    let is ← unmarshalIssues rest
    Except.ok (i :: is)

/-- Decode a `[]Issue` struct field (missing field → zero value). -/
def unmarshalIssuesField (v : Option Yaml) : Except String (List Issue) :=
  match v with
  | none => .ok []
  | some (.seq items) => unmarshalIssues items
  | some _ => .error "issues is not a sequence"

/-- Decode a `storage.QueryInfo` (`yaml.Unmarshal`). -/
def unmarshalQuery (y : Yaml) : Except String QueryInfo :=
  match y with
  | .map fields => do
    let name ← unmarshalStrField (alGet fields "name")
    let jql ← unmarshalStrField (alGet fields "jql")
    let description ← unmarshalStrField (alGet fields "description")
    let lastFetched ← unmarshalTimeField (alGet fields "last_fetched")
    let issues ← unmarshalIssuesField (alGet fields "issues")
    Except.ok ⟨name, jql, description, lastFetched, issues⟩
  | _ => .error "query is not a mapping"

/-! ## Snapshot store (`internal/jirawatch/storage`)

The store's state is the content of its data directory: file name →
content. All store operations address files through `queryFilePath`, which
prefixes the one shared data directory, so the directory prefix is kept
out of the state. A file either holds a complete serialized document or
was truncated by an in-progress `os.WriteFile` (which opens with
`O_TRUNC` and then writes). -/

/-- Content of one file in the store's data directory. -/
inductive FileContent where
  | full (doc : Yaml)
  | truncated
  deriving Repr

/-- The data directory: file name → content. -/
abbrev Fs := List (String × FileContent)

/-- File name used by `queryFilePath` for a query name: the raw name with
a `.yaml` suffix appended. -/
def queryFileName (name : String) : String := name ++ ".yaml"

/-- `Store.queryFilePath`: `filepath.Join(s.dataDir, name + ".yaml")`. -/
def queryFilePath (dataDir name : String) : String :=
  dataDir ++ "/" ++ queryFileName name

/-- `storage.JiraWatchDataDir`: `$XDG_DATA_HOME` if nonempty, else
`$HOME/.local/share`, then `ota/jira-queries` joined underneath. -/
def JiraWatchDataDir (xdgDataHome homeDir : String) : String :=
  (if xdgDataHome ≠ "" then xdgDataHome else homeDir ++ "/.local/share")
    ++ "/ota/jira-queries"

/-- `Store.SaveQuery`: marshal the record and `os.WriteFile` it at the
query's file path, overwriting whatever was there. -/
def SaveQuery (fs : Fs) (q : QueryInfo) : Fs :=
  alSet fs (queryFileName q.name) (.full (marshalQuery q))

/-- The store state observable when `Store.SaveQuery` is interrupted
between `os.WriteFile`'s truncating open and its write: the target file
exists but holds no complete document. -/
def SaveQueryInterrupted (fs : Fs) (q : QueryInfo) : Fs :=
  alSet fs (queryFileName q.name) .truncated

/-- `Store.LoadQuery`: read the file (a missing file is `(nil, nil)`, not
an error) and unmarshal it; a truncated file does not parse as a record. -/
def LoadQuery (fs : Fs) (name : String) : Except String (Option QueryInfo) :=
  match alGet fs (queryFileName name) with
  | none => .ok none
  | some .truncated => .error "failed to unmarshal query"
  | some (.full doc) =>
    match unmarshalQuery doc with
    | .ok q => .ok (some q)
    | .error e => .error ("failed to unmarshal query: " ++ e)

/-- `Store.QueryExists`: `os.Stat` on the query's file path succeeds. -/
def QueryExists (fs : Fs) (name : String) : Bool :=
  (alGet fs (queryFileName name)).isSome

/-- The one `os.Remove` failure the store's delete path inspects. -/
inductive RemoveError where
  | notExist
  deriving Repr, DecidableEq

/-- `os.Remove`: fails with a not-exist error when the file is absent. -/
def osRemove (fs : Fs) (path : String) : Except RemoveError Fs :=
  match alGet fs path with
  | none => .error .notExist
  | some _ => .ok (alRemove fs path)

/-- `Store.DeleteQuery`: `os.Remove`, swallowing the not-exist error. -/
def DeleteQuery (fs : Fs) (name : String) : Except String Fs :=
  match osRemove fs (queryFileName name) with
  | .ok fs' => .ok fs'
  | .error RemoveError.notExist => .ok fs

/-! ## Service orchestrator (`internal/jirawatch/service`)

The JIRA client is replaced by its observable results: the outcome of
`ValidateJQL` and the outcome of `ExecuteQuery`. Each operation returns
the caller-visible result together with the store state it leaves
behind. -/

/-- Outcome of `jiraClient.ExecuteQuery`. -/
inductive FetchResult where
  | ok (issues : List Issue)
  | err (msg : String)
  deriving Repr

/-- `service.WatchQueryOptions`. -/
structure WatchQueryOptions where
  name : String
  jql : String
  deriving Repr

/-- `Service.WatchQuery`: validate the JQL, load any existing record,
fetch the current issues, diff against the previous ones, persist the new
record, and report the result with the previous fetch time. -/
def WatchQuery (validateJQLError : Option String) (fetch : FetchResult)
    (now : Timestamp) (fs : Fs) (opts : WatchQueryOptions) :
    Except String QueryResult × Fs :=
  match validateJQLError with
  | some e => (.error ("invalid JQL: " ++ e), fs)
  | none =>
    match LoadQuery fs opts.name with
    | .error e => (.error ("failed to load existing query: " ++ e), fs)
    | .ok existingQuery =>
      match fetch with
      | .err e => (.error ("failed to execute query: " ++ e), fs)
      | .ok currentIssues =>
        let previousIssues := match existingQuery with
          | some q => q.issues
          | none => []
        let lastFetched := match existingQuery with
          | some q => q.lastFetched
          | none => zeroTimestamp
        let result := CompareQueries currentIssues previousIssues
        let queryInfo : QueryInfo :=
          { name := opts.name, jql := opts.jql, description := ""
            lastFetched := now, issues := currentIssues }
        let fs' := SaveQuery fs queryInfo
        (.ok { result with query := { queryInfo with lastFetched := lastFetched } }, fs')

/-- `Service.InspectQuery`: load the record (failing when absent), re-run
its stored JQL, diff, persist the refreshed record, and report the result
with the previous fetch time. -/
def InspectQuery (fetch : FetchResult) (now : Timestamp) (fs : Fs)
    (name : String) : Except String QueryResult × Fs :=
  match LoadQuery fs name with
  | .error e => (.error ("failed to load query: " ++ e), fs)
  | .ok none => (.error ("query " ++ name ++ " not found"), fs)
  | .ok (some existingQuery) =>
    match fetch with
    | .err e => (.error ("failed to execute query: " ++ e), fs)
    | .ok currentIssues =>
      let result := CompareQueries currentIssues existingQuery.issues
      let queryInfo : QueryInfo :=
        { name := existingQuery.name, jql := existingQuery.jql, description := ""
          lastFetched := now, issues := currentIssues }
      let fs' := SaveQuery fs queryInfo
      (.ok { result with query := { queryInfo with lastFetched := existingQuery.lastFetched } }, fs')

/-! ## Notions used by the claim statements -/

/-- Whether a service operation surfaced an error to its caller. -/
def isError {α : Type} (r : Except String α) : Bool :=
  match r with
  | .error _ => true
  | .ok _ => false

/-- The last issue in the list carrying the given key, if any: the binding
a Go map built by ranging over the list ends up holding. -/
def lastWithKey (issues : List Issue) (k : String) : Option Issue :=
  match issues with
  | [] => none
  | i :: rest =>
    match lastWithKey rest k with
    | some x => some x
    | none => if i.key = k then some i else none

/-- The keys of a list of issues. -/
def issueKeys (issues : List Issue) : List String := issues.map Issue.key

/-- The keys of the changed-fields map of a diff result. -/
def changedKeys (r : QueryResult) : List String := r.changedIssues.map Prod.fst

/-- No key occurs in both lists. -/
def keysDisjoint (xs ys : List String) : Bool :=
  xs.all (fun k => decide (k ∉ ys))

/-- Modelled from the spec: a filesystem-safe slug of a watch name may not
contain the path separator (a file name containing one does not address a
file directly inside the store's directory). -/
def isFilesystemSafeSlug (s : String) : Bool := !(s.data.contains '/')

/-- A concrete stored record (used to exhibit the non-atomicity of
`SaveQuery`). -/
def recordA : QueryInfo := ⟨"q", "project = A", "old", zeroTimestamp, []⟩

/-- A concrete replacement record for the same watch name. -/
def recordB : QueryInfo := ⟨"q", "project = B", "new", ⟨5, 0⟩, []⟩

/-- A concrete issue whose labels are `["a", "b"]`. -/
def issueLabelsAB : Issue := ⟨"X-1", "t", "c", "New", zeroTimestamp, ["a", "b"], "me"⟩

/-- The same issue with its labels reordered to `["b", "a"]`. -/
def issueLabelsBA : Issue := ⟨"X-1", "t", "c", "New", zeroTimestamp, ["b", "a"], "me"⟩

/-! ## Association list lemmas -/

theorem alGet_alSet {α : Type} (m : List (String × α)) (k k' : String) (v : α) :
    alGet (alSet m k v) k' = if k = k' then some v else alGet m k' := by
  induction m with
  | nil => simp [alSet, alGet]
  | cons p rest ih =>
    obtain ⟨k₀, v₀⟩ := p
    simp only [alSet, alGet]
    split_ifs with h₁ h₂ h₃ <;> simp_all [alGet]

theorem alGet_alRemove {α : Type} (m : List (String × α)) (k k' : String) :
    alGet (alRemove m k) k' = if k = k' then none else alGet m k' := by
  induction m with
  | nil => simp [alRemove, alGet]
  | cons p rest ih =>
    obtain ⟨k₀, v₀⟩ := p
    simp only [alRemove]
    by_cases h₁ : k₀ = k
    · subst h₁
      rw [if_pos rfl, ih]
      by_cases h₂ : k₀ = k' <;> simp [alGet, h₂]
    · rw [if_neg h₁]
      simp only [alGet]
      rw [ih]
      by_cases h₂ : k = k' <;> by_cases h₃ : k₀ = k' <;> simp_all

theorem alGet_eq_some_mem {α : Type} {m : List (String × α)} {k : String} {v : α}
    (h : alGet m k = some v) : (k, v) ∈ m := by
  induction m with
  | nil => simp [alGet] at h
  | cons p rest ih =>
    obtain ⟨k₀, v₀⟩ := p
    simp only [alGet] at h
    split_ifs at h with h₁
    · cases h; cases h₁; simp
    · exact List.mem_cons_of_mem _ (ih h)

theorem alGet_isSome_of_mem {α : Type} {m : List (String × α)} {p : String × α}
    (h : p ∈ m) : (alGet m p.1).isSome := by
  induction m with
  | nil => simp at h
  | cons q rest ih =>
    obtain ⟨k₀, v₀⟩ := q
    rcases List.mem_cons.mp h with h' | h'
    · subst h'; simp [alGet]
    · simp only [alGet]
      split_ifs <;> simp [ih h']

theorem mem_alSet {α : Type} {m : List (String × α)} {k : String} {v : α}
    {p : String × α} (h : p ∈ alSet m k v) : p = (k, v) ∨ p ∈ m := by
  induction m with
  | nil => simpa [alSet] using h
  | cons q rest ih =>
    obtain ⟨k₀, v₀⟩ := q
    simp only [alSet] at h
    split_ifs at h with h₁
    · rcases List.mem_cons.mp h with h' | h' <;> simp [h']
    · rcases List.mem_cons.mp h with h' | h'
      · simp [h']
      · rcases ih h' with h'' | h'' <;> simp [h'']

theorem mem_keys_alSet {α : Type} (m : List (String × α)) (k k' : String) (v : α) :
    k' ∈ (alSet m k v).map Prod.fst ↔ k' = k ∨ k' ∈ m.map Prod.fst := by
  induction m with
  | nil => simp [alSet]
  | cons q rest ih =>
    obtain ⟨k₀, v₀⟩ := q
    simp only [alSet]
    split_ifs with h₁ <;> simp_all
    tauto

theorem keys_alSet_nodup {α : Type} {m : List (String × α)} {k : String} {v : α}
    (h : (m.map Prod.fst).Nodup) : ((alSet m k v).map Prod.fst).Nodup := by
  induction m with
  | nil => simp [alSet]
  | cons q rest ih =>
    obtain ⟨k₀, v₀⟩ := q
    simp only [List.map_cons, List.nodup_cons] at h
    simp only [alSet]
    split_ifs with h₁
    · subst h₁
      simpa [List.nodup_cons] using h
    · simp only [List.map_cons, List.nodup_cons]
      refine ⟨fun hmem => ?_, ih h.2⟩
      rcases (mem_keys_alSet rest k k₀ v).mp hmem with h' | h'
      · exact h₁ h'
      · exact h.1 h'

theorem alGet_of_nodup_mem {α : Type} {m : List (String × α)}
    (h : (m.map Prod.fst).Nodup) {p : String × α} (hp : p ∈ m) :
    alGet m p.1 = some p.2 := by
  induction m with
  | nil => simp at hp
  | cons q rest ih =>
    obtain ⟨k₀, v₀⟩ := q
    simp only [List.map_cons, List.nodup_cons] at h
    rcases List.mem_cons.mp hp with h' | h'
    · subst h'; simp [alGet]
    · have hne : k₀ ≠ p.1 := by
        intro he
        exact h.1 (he ▸ List.mem_map_of_mem Prod.fst h')
      simp only [alGet, if_neg hne]
      exact ih h.2 h'

theorem alSet_alSet {α : Type} (m : List (String × α)) (k : String) (v w : α) :
    alSet (alSet m k v) k w = alSet m k w := by
  induction m with
  | nil => simp [alSet]
  | cons q rest ih =>
    obtain ⟨k₀, v₀⟩ := q
    simp only [alSet]
    split_ifs with h₁ <;> simp_all [alSet]

/-! ## Lemmas about the key→Issue index -/

theorem alGet_foldl_alSet (issues : List Issue) (m : List (String × Issue)) (k : String) :
    alGet (issues.foldl (fun m issue => alSet m issue.key issue) m) k
      = match lastWithKey issues k with
        | some x => some x
        | none => alGet m k := by
  induction issues generalizing m with
  | nil => simp [lastWithKey]
  | cons i rest ih =>
    simp only [List.foldl_cons, lastWithKey]
    rw [ih]
    cases h : lastWithKey rest k with
    | some x => simp
    | none => by_cases hik : i.key = k <;> simp [alGet_alSet, hik]

theorem alGet_buildIssueMap (issues : List Issue) (k : String) :
    alGet (buildIssueMap issues) k = lastWithKey issues k := by
  rw [buildIssueMap, alGet_foldl_alSet]
  cases lastWithKey issues k <;> simp [alGet]

theorem key_eq_of_mem_foldl (issues : List Issue) (m : List (String × Issue))
    (hm : ∀ p ∈ m, Issue.key p.2 = p.1) :
    ∀ p ∈ issues.foldl (fun m issue => alSet m issue.key issue) m,
      Issue.key p.2 = p.1 := by
  induction issues generalizing m with
  | nil => simpa using hm
  | cons i rest ih =>
    simp only [List.foldl_cons]
    refine ih _ (fun p hp => ?_)
    rcases mem_alSet hp with h | h
    · subst h; rfl
    · exact hm p h

theorem buildIssueMap_key {issues : List Issue} :
    ∀ p ∈ buildIssueMap issues, Issue.key p.2 = p.1 :=
  key_eq_of_mem_foldl issues [] (by simp)

theorem keys_nodup_foldl (issues : List Issue) (m : List (String × Issue))
    (hm : (m.map Prod.fst).Nodup) :
    ((issues.foldl (fun m issue => alSet m issue.key issue) m).map Prod.fst).Nodup := by
  induction issues generalizing m with
  | nil => simpa using hm
  | cons i rest ih => exact ih _ (keys_alSet_nodup hm)

theorem buildIssueMap_keys_nodup (issues : List Issue) :
    ((buildIssueMap issues).map Prod.fst).Nodup :=
  keys_nodup_foldl issues [] (by simp)

/-! ## Lemmas about the shape of `CompareQueries` results -/

theorem CompareQueries_newIssues (current previous : List Issue) :
    (CompareQueries current previous).newIssues
      = ((buildIssueMap current).filter
          (fun p => (alGet (buildIssueMap previous) p.1).isNone)).map Prod.snd := rfl

theorem CompareQueries_removedIssues (current previous : List Issue) :
    (CompareQueries current previous).removedIssues
      = ((buildIssueMap previous).filter
          (fun p => (alGet (buildIssueMap current) p.1).isNone)).map Prod.snd := rfl

theorem CompareQueries_changedIssues (current previous : List Issue) :
    (CompareQueries current previous).changedIssues
      = (buildIssueMap current).filterMap (fun p =>
          match alGet (buildIssueMap previous) p.1 with
          | some previousIssue =>
            let changes := compareIssues p.2 previousIssue
            if changes.length > 0 then some (p.1, changes) else none
          | none => none) := rfl

theorem of_mem_new {current previous : List Issue} {i : Issue}
    (h : i ∈ (CompareQueries current previous).newIssues) :
    alGet (buildIssueMap current) i.key = some i
    ∧ alGet (buildIssueMap previous) i.key = none := by
  rw [CompareQueries_newIssues] at h
  rcases List.mem_map.mp h with ⟨p, hp, hpi⟩
  have hfil := List.mem_filter.mp hp
  have hkey : Issue.key p.2 = p.1 := buildIssueMap_key p hfil.1
  have hk : p.1 = i.key := by rw [← hkey, hpi]
  constructor
  · rw [← hk, ← hpi]
    exact alGet_of_nodup_mem (buildIssueMap_keys_nodup current) hfil.1
  · rw [← hk]
    simpa [Option.isNone_iff_eq_none] using hfil.2

theorem of_mem_removed {current previous : List Issue} {i : Issue}
    (h : i ∈ (CompareQueries current previous).removedIssues) :
    alGet (buildIssueMap previous) i.key = some i
    ∧ alGet (buildIssueMap current) i.key = none := by
  rw [CompareQueries_removedIssues] at h
  rcases List.mem_map.mp h with ⟨p, hp, hpi⟩
  have hfil := List.mem_filter.mp hp
  have hkey : Issue.key p.2 = p.1 := buildIssueMap_key p hfil.1
  have hk : p.1 = i.key := by rw [← hkey, hpi]
  constructor
  · rw [← hk, ← hpi]
    exact alGet_of_nodup_mem (buildIssueMap_keys_nodup previous) hfil.1
  · rw [← hk]
    simpa [Option.isNone_iff_eq_none] using hfil.2

theorem of_mem_changed {current previous : List Issue} {q : String × List IssueChange}
    (h : q ∈ (CompareQueries current previous).changedIssues) :
    ∃ c pr, alGet (buildIssueMap current) q.1 = some c
      ∧ alGet (buildIssueMap previous) q.1 = some pr
      ∧ q.2 = compareIssues c pr := by
  rw [CompareQueries_changedIssues] at h
  rcases List.mem_filterMap.mp h with ⟨p, hp, hf⟩
  cases hget : alGet (buildIssueMap previous) p.1 with
  | none => rw [hget] at hf; simp at hf
  | some pr =>
    rw [hget] at hf
    simp only at hf
    split_ifs at hf with hlen
    injection hf with hf'
    subst hf'
    exact ⟨p.2, pr, alGet_of_nodup_mem (buildIssueMap_keys_nodup current) hp, hget, rfl⟩

theorem changed_fst_eq {previous : List Issue}
    {p : String × Issue} {q : String × List IssueChange}
    (hf : (match alGet (buildIssueMap previous) p.1 with
      | some previousIssue =>
        let changes := compareIssues p.2 previousIssue
        if changes.length > 0 then some (p.1, changes) else none
      | none => none) = some q) : q.1 = p.1 := by
  cases hget : alGet (buildIssueMap previous) p.1 with
  | none => rw [hget] at hf; simp at hf
  | some pr =>
    rw [hget] at hf
    simp only at hf
    split_ifs at hf with hlen
    injection hf with hf'
    subst hf'
    rfl

theorem issueKeys_map_snd_eq (m : List (String × Issue))
    (hm : ∀ p ∈ m, Issue.key p.2 = p.1) :
    issueKeys (m.map Prod.snd) = m.map Prod.fst := by
  rw [issueKeys, List.map_map]
  exact List.map_congr_left (fun p hp => hm p hp)

theorem newKeys_nodup (current previous : List Issue) :
    (issueKeys (CompareQueries current previous).newIssues).Nodup := by
  rw [CompareQueries_newIssues,
    issueKeys_map_snd_eq _ (fun p hp => buildIssueMap_key p (List.mem_of_mem_filter hp))]
  exact (buildIssueMap_keys_nodup current).sublist
    ((List.filter_sublist _).map Prod.fst)

theorem removedKeys_nodup (current previous : List Issue) :
    (issueKeys (CompareQueries current previous).removedIssues).Nodup := by
  rw [CompareQueries_removedIssues,
    issueKeys_map_snd_eq _ (fun p hp => buildIssueMap_key p (List.mem_of_mem_filter hp))]
  exact (buildIssueMap_keys_nodup previous).sublist
    ((List.filter_sublist _).map Prod.fst)

theorem map_fst_filterMap_sublist {α β : Type}
    (m : List (String × α)) (f : String × α → Option (String × β))
    (hf : ∀ p q, f p = some q → q.1 = p.1) :
    List.Sublist ((m.filterMap f).map Prod.fst) (m.map Prod.fst) := by
  induction m with
  | nil => simp
  | cons p rest ih =>
    rw [List.filterMap_cons]
    cases hfp : f p with
    | none =>
      simp only [List.map_cons]
      exact ih.cons p.1
    | some q =>
      simp only [List.map_cons]
      rw [hf p q hfp]
      exact ih.cons₂ p.1

theorem changedKeys_nodup (current previous : List Issue) :
    (changedKeys (CompareQueries current previous)).Nodup := by
  rw [changedKeys, CompareQueries_changedIssues]
  exact (buildIssueMap_keys_nodup current).sublist
    (map_fst_filterMap_sublist _ _ (fun p q hf => changed_fst_eq hf))

/-! ## Lemmas about serialization -/

theorem unmarshalLabels_marshal (ls : List String) :
    unmarshalLabels (ls.map Yaml.str) = Except.ok ls := by
  induction ls with
  | nil => rfl
  | cons s rest ih =>
    simp only [List.map_cons, unmarshalLabels, unmarshalLabel]
    rw [ih]
    rfl

theorem unmarshalIssue_marshalIssue (i : Issue) :
    unmarshalIssue (marshalIssue i) = Except.ok i := by
  simp [marshalIssue, unmarshalIssue, alGet, unmarshalStrField, unmarshalTimeField,
    unmarshalLabelsField, unmarshalLabels_marshal]
  rfl

theorem unmarshalIssues_marshal (issues : List Issue) :
    unmarshalIssues (issues.map marshalIssue) = Except.ok issues := by
  induction issues with
  | nil => rfl
  | cons i rest ih =>
    simp only [List.map_cons, unmarshalIssues, unmarshalIssue_marshalIssue]
    rw [ih]
    rfl

theorem unmarshalQuery_marshalQuery (q : QueryInfo) :
    unmarshalQuery (marshalQuery q) = Except.ok q := by
  simp [marshalQuery, unmarshalQuery, alGet, unmarshalStrField, unmarshalTimeField,
    unmarshalIssuesField, unmarshalIssues_marshal]
  rfl

/-! ## Claims -/

/-- Claim C1: for every pair of item lists, the key sets of
`CompareQueries`'s new issues, removed issues, and changed-fields map are
pairwise disjoint: no item key appears in more than one of the three
collections of a single result. -/
theorem c1_diff_key_sets_pairwise_disjoint (current previous : List Issue) :
    keysDisjoint (issueKeys (CompareQueries current previous).newIssues)
      (issueKeys (CompareQueries current previous).removedIssues) = true
    ∧ keysDisjoint (issueKeys (CompareQueries current previous).newIssues)
      (changedKeys (CompareQueries current previous)) = true
    ∧ keysDisjoint (issueKeys (CompareQueries current previous).removedIssues)
      (changedKeys (CompareQueries current previous)) = true := by
  refine ⟨?_, ?_, ?_⟩
  · rw [keysDisjoint, List.all_eq_true]
    intro k hk
    rw [decide_eq_true_eq]
    intro hk'
    rw [issueKeys, List.mem_map] at hk hk'
    rcases hk with ⟨i, hi, rfl⟩
    rcases hk' with ⟨j, hj, hjk⟩
    have h₁ := (of_mem_new hi).2
    have h₂ := (of_mem_removed hj).1
    rw [hjk, h₁] at h₂
    cases h₂
  · rw [keysDisjoint, List.all_eq_true]
    intro k hk
    rw [decide_eq_true_eq]
    intro hk'
    rw [issueKeys, List.mem_map] at hk
    rcases hk with ⟨i, hi, rfl⟩
    rw [changedKeys, List.mem_map] at hk'
    rcases hk' with ⟨q, hq, hqk⟩
    rcases of_mem_changed hq with ⟨c, pr, _, h₂, _⟩
    rw [hqk, (of_mem_new hi).2] at h₂
    cases h₂
  · rw [keysDisjoint, List.all_eq_true]
    intro k hk
    rw [decide_eq_true_eq]
    intro hk'
    rw [issueKeys, List.mem_map] at hk
    rcases hk with ⟨i, hi, rfl⟩
    rw [changedKeys, List.mem_map] at hk'
    rcases hk' with ⟨q, hq, hqk⟩
    rcases of_mem_changed hq with ⟨c, pr, h₁, _, _⟩
    rw [hqk, (of_mem_removed hi).2] at h₁
    cases h₁

/-- Claim C2, counterexample: two items with the same key whose label
lists hold the same labels in a different order (equal as multisets) do
produce a labels `IssueChange`, contradicting the claim that reordering
alone produces none. -/
theorem c2_reordered_labels_produce_change :
    (↑(Issue.labels issueLabelsBA) : Multiset String) = ↑(Issue.labels issueLabelsAB)
    ∧ (CompareQueries [issueLabelsBA] [issueLabelsAB]).changedIssues
      = [("X-1", [⟨"labels", "a, b", "b, a"⟩])] := by
  exact ⟨by decide, by decide⟩

/-- Claim C2 as amended: for an item present in both snapshots, the diff
engine produces a labels change exactly when the two label lists differ
element-wise as lists (order- and nil-versus-empty-sensitive), not when
they differ as unordered collections. -/
theorem c2_labels_change_iff_lists_differ (current previous : Issue) :
    (∃ c ∈ compareIssues current previous, c.field = "labels")
      ↔ current.labels ≠ previous.labels := by
  by_cases h1 : current.summary = previous.summary <;>
    by_cases h2 : current.component = previous.component <;>
      by_cases h3 : current.status = previous.status <;>
        by_cases h4 : current.assignee = previous.assignee <;>
          by_cases h5 : current.lastUpdated = previous.lastUpdated <;>
            by_cases h6 : current.labels = previous.labels <;>
              simp [compareIssues, h1, h2, h3, h4, h5, h6]

/-- Claim C2, witness for the amended claim at a concrete input. -/
theorem c2_labels_change_witness :
    ∃ c ∈ compareIssues issueLabelsBA issueLabelsAB, c.field = "labels" :=
  (c2_labels_change_iff_lists_differ issueLabelsBA issueLabelsAB).mpr (by decide)

/-- Claim C3, counterexample: `SaveQuery` writes the record file in place
with `os.WriteFile` (truncate, then write) rather than via a temporary
file and rename, so an interruption between the truncation and the write
leaves the stored file holding neither the old nor the new record. -/
theorem c3_interrupted_save_is_neither_version :
    alGet (SaveQuery [] recordA) (queryFileName "q")
      = some (FileContent.full (marshalQuery recordA))
    ∧ alGet (SaveQueryInterrupted (SaveQuery [] recordA) recordB) (queryFileName "q")
      = some FileContent.truncated
    ∧ FileContent.truncated ≠ FileContent.full (marshalQuery recordA)
    ∧ FileContent.truncated ≠ FileContent.full (marshalQuery recordB) := by
  refine ⟨rfl, rfl, fun h => FileContent.noConfusion h, fun h => FileContent.noConfusion h⟩

/-- Claim C3 as amended: `SaveQuery` idempotently overwrites any existing
record under the same name, but it is not atomic: the file is truncated
and rewritten in place, and an interruption mid-write leaves a truncated
file instead of one of the two complete versions. -/
theorem c3_save_overwrites_idempotently (fs : Fs) (q : QueryInfo) :
    SaveQuery (SaveQuery fs q) q = SaveQuery fs q
    ∧ alGet (SaveQuery fs q) (queryFileName q.name)
      = some (FileContent.full (marshalQuery q))
    ∧ alGet (SaveQueryInterrupted fs q) (queryFileName q.name)
      = some FileContent.truncated := by
  refine ⟨?_, ?_, ?_⟩
  · simp only [SaveQuery, alSet_alSet]
  · simp [SaveQuery, alGet_alSet]
  · simp [SaveQueryInterrupted, alGet_alSet]

/-- Claim C4: when fetching the current issues fails, both `WatchQuery`
and `InspectQuery` abort with an error and leave the store untouched. -/
theorem c4_fetch_failure_leaves_store_untouched (msg : String) (now : Timestamp)
    (fs : Fs) (opts : WatchQueryOptions) (name : String) :
    (isError (WatchQuery none (FetchResult.err msg) now fs opts).1 = true
      ∧ (WatchQuery none (FetchResult.err msg) now fs opts).2 = fs)
    ∧ (isError (InspectQuery (FetchResult.err msg) now fs name).1 = true
      ∧ (InspectQuery (FetchResult.err msg) now fs name).2 = fs) := by
  refine ⟨?_, ?_⟩
  · cases h : LoadQuery fs opts.name with
    | error e => exact ⟨by simp [WatchQuery, h, isError], by simp [WatchQuery, h]⟩
    | ok ex => exact ⟨by simp [WatchQuery, h, isError], by simp [WatchQuery, h]⟩
  · cases h : LoadQuery fs name with
    | error e => exact ⟨by simp [InspectQuery, h, isError], by simp [InspectQuery, h]⟩
    | ok ex =>
      cases ex with
      | none => exact ⟨by simp [InspectQuery, h, isError], by simp [InspectQuery, h]⟩
      | some q => exact ⟨by simp [InspectQuery, h, isError], by simp [InspectQuery, h]⟩

/-- Claim C5: inspecting a watch name with no stored record fails with a
not-found error and leaves the store exactly as it was. -/
theorem c5_inspect_unknown_name_fails_not_found (fetch : FetchResult)
    (now : Timestamp) (fs : Fs) (name : String)
    (h : QueryExists fs name = false) :
    (InspectQuery fetch now fs name).1
      = Except.error ("query " ++ name ++ " not found")
    ∧ (InspectQuery fetch now fs name).2 = fs := by
  have hget : alGet fs (queryFileName name) = none := by
    cases hx : alGet fs (queryFileName name) with
    | none => rfl
    | some v => rw [QueryExists, hx] at h; simp at h
  exact ⟨by simp [InspectQuery, LoadQuery, hget], by simp [InspectQuery, LoadQuery, hget]⟩

/-- Claim C5, witness: inspecting a never-created name on an empty store. -/
theorem c5_inspect_unknown_name_witness :
    (InspectQuery (FetchResult.ok []) zeroTimestamp [] "w").1
      = Except.error ("query " ++ "w" ++ " not found")
    ∧ (InspectQuery (FetchResult.ok []) zeroTimestamp [] "w").2 = [] :=
  c5_inspect_unknown_name_fails_not_found (FetchResult.ok []) zeroTimestamp [] "w" rfl

/-- Claim C6, counterexample: the stored file's name is the raw watch name
with `.yaml` appended, with no filesystem-safe encoding applied: the watch
name `a/b` yields the file name `a/b.yaml`, which contains a path
separator and so does not address a file directly inside the store's
directory. -/
theorem c6_raw_name_is_not_a_slug :
    queryFileName "a/b" = "a/b.yaml"
    ∧ isFilesystemSafeSlug (queryFileName "a/b") = false
    ∧ queryFilePath "/data" "a/b" = "/data/a/b.yaml" := by
  refine ⟨by decide, by decide, by decide⟩

/-- Claim C6 as amended: each watch name is addressed by the single file
`<raw name>.yaml` (distinct names map to distinct file names, but no
filesystem-safe encoding is applied to the name) under the per-user data
directory `$XDG_DATA_HOME/ota/jira-queries`, falling back to
`$HOME/.local/share/ota/jira-queries` when `XDG_DATA_HOME` is empty. -/
theorem c6_record_path_under_data_dir (xdg home name : String) :
    queryFilePath (JiraWatchDataDir xdg home) name
      = (if xdg ≠ "" then xdg else home ++ "/.local/share")
          ++ "/ota/jira-queries" ++ "/" ++ (name ++ ".yaml")
    ∧ ∀ n₁ n₂ : String, queryFileName n₁ = queryFileName n₂ → n₁ = n₂ := by
  constructor
  · rfl
  · intro n₁ n₂ h
    rw [queryFileName, queryFileName] at h
    have hd := congrArg String.data h
    rw [String.data_append, String.data_append] at hd
    have hc := List.append_cancel_right hd
    cases n₁
    cases n₂
    exact congrArg String.mk hc

/-- Claim C6, witness for the amended claim at concrete values. -/
theorem c6_record_path_witness :
    queryFilePath (JiraWatchDataDir "/xdg" "/home/u") "proj"
      = (if ("/xdg" : String) ≠ "" then "/xdg" else "/home/u" ++ "/.local/share")
          ++ "/ota/jira-queries" ++ "/" ++ ("proj" ++ ".yaml")
    ∧ "watch" = "watch" :=
  ⟨(c6_record_path_under_data_dir "/xdg" "/home/u" "proj").1,
    (c6_record_path_under_data_dir "/xdg" "/home/u" "proj").2 "watch" "watch" rfl⟩

/-- Claim C7: deleting a query succeeds and deleting it again (or deleting
a never-created name) also succeeds; when no record exists the delete is a
no-op on the store. -/
theorem c7_delete_is_idempotent_success (fs : Fs) (name : String) :
    ∃ fs', DeleteQuery fs name = Except.ok fs'
      ∧ DeleteQuery fs' name = Except.ok fs'
      ∧ (QueryExists fs name = false → fs' = fs) := by
  cases hx : alGet fs (queryFileName name) with
  | none =>
    refine ⟨fs, ?_, ?_, fun _ => rfl⟩ <;> simp [DeleteQuery, osRemove, hx]
  | some v =>
    refine ⟨alRemove fs (queryFileName name), ?_, ?_, ?_⟩
    · simp [DeleteQuery, osRemove, hx]
    · simp [DeleteQuery, osRemove, alGet_alRemove]
    · intro hq
      rw [QueryExists, hx] at hq
      simp at hq

/-- Claim C7, witness: double delete of a never-created name on an empty
store. -/
theorem c7_delete_witness :
    ∃ fs', DeleteQuery ([] : Fs) "x" = Except.ok fs'
      ∧ DeleteQuery fs' "x" = Except.ok fs'
      ∧ (QueryExists ([] : Fs) "x" = false → fs' = ([] : Fs)) :=
  c7_delete_is_idempotent_success [] "x"

/-- Claim C8: saving a record and loading it back under its name yields an
equal record — same name, query text, description, timestamp (to the
second and beyond), and item list in the same order. -/
theorem c8_save_load_round_trip (fs : Fs) (q : QueryInfo) :
    LoadQuery (SaveQuery fs q) q.name = Except.ok (some q) := by
  simp [LoadQuery, SaveQuery, alGet_alSet, unmarshalQuery_marshalQuery]

/-- Claim C9: `CompareQueries` deduplicates its inputs by key — the keys
of the new list, removed list, and changed map are each free of
duplicates, and the issue considered for each key is the last occurrence
of that key in its input list. -/
theorem c9_dedup_by_key_last_occurrence_wins (current previous : List Issue) :
    (issueKeys (CompareQueries current previous).newIssues).Nodup
    ∧ (issueKeys (CompareQueries current previous).removedIssues).Nodup
    ∧ (changedKeys (CompareQueries current previous)).Nodup
    ∧ (∀ i ∈ (CompareQueries current previous).newIssues,
        lastWithKey current i.key = some i)
    ∧ (∀ i ∈ (CompareQueries current previous).removedIssues,
        lastWithKey previous i.key = some i)
    ∧ (∀ q ∈ (CompareQueries current previous).changedIssues,
        ∃ c pr, lastWithKey current q.1 = some c
          ∧ lastWithKey previous q.1 = some pr
          ∧ q.2 = compareIssues c pr) := by
  refine ⟨newKeys_nodup current previous, removedKeys_nodup current previous,
    changedKeys_nodup current previous, ?_, ?_, ?_⟩
  · intro i hi
    rw [← alGet_buildIssueMap]
    exact (of_mem_new hi).1
  · intro i hi
    rw [← alGet_buildIssueMap]
    exact (of_mem_removed hi).1
  · intro q hq
    rcases of_mem_changed hq with ⟨c, pr, h₁, h₂, h₃⟩
    refine ⟨c, pr, ?_, ?_, h₃⟩
    · rw [← alGet_buildIssueMap]; exact h₁
    · rw [← alGet_buildIssueMap]; exact h₂

/-- Claim C9, witness: with a duplicated key in the current list, the new
list carries the last occurrence. -/
theorem c9_dedup_witness :
    lastWithKey [issueLabelsAB, issueLabelsBA] (Issue.key issueLabelsBA)
      = some issueLabelsBA := by
  have h := c9_dedup_by_key_last_occurrence_wins [issueLabelsAB, issueLabelsBA] []
  exact h.2.2.2.1 issueLabelsBA (by decide)

/-- Claim C10: the store operations are consistent with `QueryExists` —
after `SaveQuery q` the name `q.name` exists, and after a successful
`DeleteQuery name` the name no longer exists. -/
theorem c10_store_ops_consistent_with_exists (fs : Fs) (q : QueryInfo)
    (name : String) :
    QueryExists (SaveQuery fs q) q.name = true
    ∧ ∃ fs', DeleteQuery fs name = Except.ok fs'
      ∧ QueryExists fs' name = false := by
  constructor
  · simp [QueryExists, SaveQuery, alGet_alSet]
  · cases hx : alGet fs (queryFileName name) with
    | none =>
      exact ⟨fs, by simp [DeleteQuery, osRemove, hx], by simp [QueryExists, hx]⟩
    | some v =>
      refine ⟨alRemove fs (queryFileName name), by simp [DeleteQuery, osRemove, hx], ?_⟩
      simp [QueryExists, alGet_alRemove]

end OTA
